import Mathlib

/-!
Verification of the request-classification / caching / failover core of the
`super-rpc` JSON-RPC proxy against its natural-language specification.

The development shallowly embeds the relevant TypeScript functions:
  * `CacheManager.getCacheKey`, `CacheManager.getFromCache`,
    `CacheManager.writeToCache` (cache manager source file);
  * `RPCProxy.generateInflightKey`, `RPCProxy.processSingleRequest`,
    `RPCProxy.resolveCachePolicy` (proxy server source file);
  * `RPCProxy.resolveCachePolicyForSubgraph` (`src/services/proxy.ts`);
  * `HTTPClient.makeRequest`, `HTTPClient.makeRequestWithRetry`,
    `HTTPClient.shouldTryFallback`, `HTTPClient.isHistoricalRequest`
    (`src/client/http-client.ts`);
  * `LRUCache` (`src/cache/lru-cache.ts`).

JSON values are modelled by the mutual inductive `Json`; JavaScript dynamic
coercions used by the source (`String(·)` in template literals, truthiness
tests, `JSON.stringify`) are modelled explicitly below.  JavaScript numbers
are modelled as `Int`: every numeric literal the proxy handles in the
modelled code paths is integral, and no arithmetic is performed on them.
`undefined` is modelled by `Option.none` at the points where the source can
observe it (absent object fields, out-of-range array reads).
-/

mutual

/-- A JSON value.  Arrays and objects carry their own spine so that all
functions below are structurally recursive (JavaScript object fields are
ordered, and the source's key derivation depends on that order). -/
inductive Json where
  | null
  | bool (b : Bool)
  | num (n : Int)
  | str (s : String)
  | arr (elems : JsonList)
  | obj (fields : JsonFields)
deriving DecidableEq

/-- Spine of a JSON array. -/
inductive JsonList where
  | nil
  | cons (head : Json) (tail : JsonList)
deriving DecidableEq

/-- Spine of a JSON object: an ordered list of key/value fields. -/
inductive JsonFields where
  | nil
  | cons (key : String) (val : Json) (tail : JsonFields)
deriving DecidableEq

end

/-- First field bound to `k`, i.e. the JavaScript property read `o[k]`
(`none` models `undefined`). -/
def JsonFields.lookup : JsonFields → String → Option Json
  | .nil, _ => none
  | .cons k v t, k' => if k = k' then some v else t.lookup k'

/-- JavaScript `k in o` / `Object.prototype.hasOwnProperty.call(o, k)`. -/
def JsonFields.hasKey : JsonFields → String → Bool
  | .nil, _ => false
  | .cons k _ t, k' => if k = k' then true else t.hasKey k'

/-- JavaScript property write `o[k] = v` (also the effect of
`\x7b...o, k: v\x7d`): an existing field keeps its position, a new field is
appended. -/
def JsonFields.setField : JsonFields → String → Json → JsonFields
  | .nil, k, v => .cons k v .nil
  | .cons k' v' t, k, v =>
      if k' = k then .cons k' v t else .cons k' v' (t.setField k v)

/-- JavaScript truthiness of a JSON value (`NaN` does not arise: numbers are
integral). -/
def Json.truthy : Json → Bool
  | .null => false
  | .bool b => b
  | .num n => n ≠ 0
  | .str s => s ≠ ""
  | .arr _ => true
  | .obj _ => true

/-- Truthiness of a possibly-`undefined` value (`undefined` is falsy). -/
def truthyOpt : Option Json → Bool
  | none => false
  | some v => v.truthy

mutual

/-- JavaScript `String(v)` — the coercion applied by template literals:
`null → "null"`, numbers print in decimal, arrays join their elements with
`","` (with `null` elements printing as the empty string), and plain objects
print as `"[object Object]"`. -/
def jsToString : Json → String
  | .null => "null"
  | .bool b => if b then "true" else "false"
  | .num n => toString n
  | .str s => s
  | .arr xs => jsListToString xs
  | .obj _ => "[object Object]"

/-- `Array.prototype.toString` body: `join(",")`, where a `null` element
prints as the empty string. -/
def jsListToString : JsonList → String
  | .nil => ""
  | .cons .null .nil => ""
  | .cons h .nil => jsToString h
  | .cons .null t => "," ++ jsListToString t
  | .cons h t => jsToString h ++ "," ++ jsListToString t

end

/-- One character of a JSON string literal as `JSON.stringify` escapes it. -/
def jsonEscapeChar (c : Char) : String :=
  if c = '"' then "\\\""
  else if c = '\\' then "\\\\"
  else if c = '\n' then "\\n"
  else if c = '\r' then "\\r"
  else if c = '\t' then "\\t"
  else if c = '\x08' then "\\b"
  else if c = '\x0c' then "\\f"
  else if c.toNat < 32 then
    let hexDigit : Nat → String := fun d =>
      if d < 10 then toString d
      else if d = 10 then "a" else if d = 11 then "b" else if d = 12 then "c"
      else if d = 13 then "d" else if d = 14 then "e" else "f"
    "\\u00" ++ hexDigit (c.toNat / 16) ++ hexDigit (c.toNat % 16)
  else String.singleton c

/-- JSON string literal (quoted, escaped) as produced by `JSON.stringify`. -/
def jsonQuote (s : String) : String :=
  "\"" ++ String.join (s.toList.map jsonEscapeChar) ++ "\""

mutual

/-- `JSON.stringify(v)` with no spacing.  Object fields are emitted in their
stored order — JavaScript does not canonicalise key order. -/
def jsonStringify : Json → String
  | .null => "null"
  | .bool b => if b then "true" else "false"
  | .num n => toString n
  | .str s => jsonQuote s
  | .arr xs => "[" ++ jsonStringifyList xs ++ "]"
  | .obj fs => "\x7b" ++ jsonStringifyFields fs ++ "\x7d"

/-- Comma-separated serialisation of array elements. -/
def jsonStringifyList : JsonList → String
  | .nil => ""
  | .cons h .nil => jsonStringify h
  | .cons h t => jsonStringify h ++ "," ++ jsonStringifyList t

/-- Comma-separated serialisation of object fields. -/
def jsonStringifyFields : JsonFields → String
  | .nil => ""
  | .cons k v .nil => jsonQuote k ++ ":" ++ jsonStringify v
  | .cons k v t => jsonQuote k ++ ":" ++ jsonStringify v ++ "," ++ jsonStringifyFields t

end

/-- `JSON.stringify` of a JavaScript array given as a Lean list (used for
`request.params`). -/
def jsonStringifyParams (ps : List Json) : String :=
  "[" ++ String.intercalate "," (ps.map jsonStringify) ++ "]"

/-- Lexicographic order on character lists by code point (a computable
strict order used only to canonicalise object key order). -/
def charListLt : List Char → List Char → Bool
  | [], [] => false
  | [], _ :: _ => true
  | _ :: _, [] => false
  | a :: as, b :: bs =>
      if a.toNat < b.toNat then true
      else if b.toNat < a.toNat then false
      else charListLt as bs

/-- Strict lexicographic order on strings by code point. -/
def strLt (a b : String) : Bool := charListLt a.toList b.toList

/-- Character-list version of the test below. -/
def charListBegins : List Char → List Char → Bool
  | [], _ => true
  | _ :: _, [] => false
  | a :: as, b :: bs => a = b && charListBegins as bs

/-- JavaScript `s.startsWith(pre)`. -/
def strBeginsWith (s pre : String) : Bool := charListBegins pre.toList s.toList

/-- Insert a field into a key-sorted field list (used only to define
structural equality of JSON values, not by any embedded source function). -/
def sortedInsertField (k : String) (v : Json) : JsonFields → JsonFields
  | .nil => .cons k v .nil
  | .cons k' v' t =>
      if strLt k k' then .cons k v (.cons k' v' t)
      else .cons k' v' (sortedInsertField k v t)

mutual

/-- Canonical form of a JSON value: object keys sorted recursively.  Two
values are structurally equal (equal as JSON data, ignoring object key
order) exactly when their canonical forms are equal. -/
def Json.canon : Json → Json
  | .null => .null
  | .bool b => .bool b
  | .num n => .num n
  | .str s => .str s
  | .arr xs => .arr xs.canon
  | .obj fs => .obj fs.canon

/-- Canonicalise every element of an array. -/
def JsonList.canon : JsonList → JsonList
  | .nil => .nil
  | .cons h t => .cons h.canon t.canon

/-- Canonicalise field values, then sort fields by key. -/
def JsonFields.canon : JsonFields → JsonFields
  | .nil => .nil
  | .cons k v t => sortedInsertField k v.canon t.canon

end

/-- Structural equality of JSON values: equality up to object key order. -/
def jsonStructEq (a b : Json) : Prop := a.canon = b.canon

instance (a b : Json) : Decidable (jsonStructEq a b) := by
  unfold jsonStructEq; infer_instance


/-! ### SHA-256

`CacheManager.getCacheKey` falls back to
`createHash('sha256').update(...).digest('hex').substring(0, 16)` for
parameter shapes outside its fast paths.  SHA-256 (FIPS 180-4) is embedded
below over `Nat` with explicit reduction modulo `2 ^ 32`. -/

/-- Word size modulus. -/
def w32 : Nat := 4294967296

/-- Addition modulo `2 ^ 32`. -/
def add32 (a b : Nat) : Nat := (a + b) % w32

/-- Right rotation of a 32-bit word. -/
def rotr32 (n x : Nat) : Nat := x / 2 ^ n + x % 2 ^ n * 2 ^ (32 - n)

/-- Right shift of a 32-bit word. -/
def shr32 (n x : Nat) : Nat := x / 2 ^ n

/-- Bitwise complement of a 32-bit word. -/
def not32 (x : Nat) : Nat := 4294967295 - x

/-- SHA-256 round constants. -/
def sha256K : List Nat :=
  [1116352408, 1899447441, 3049323471, 3921009573, 961987163, 1508970993,
   2453635748, 2870763221, 3624381080, 310598401, 607225278, 1426881987,
   1925078388, 2162078206, 2614888103, 3248222580, 3835390401, 4022224774,
   264347078, 604807628, 770255983, 1249150122, 1555081692, 1996064986,
   2554220882, 2821834349, 2952996808, 3210313671, 3336571891, 3584528711,
   113926993, 338241895, 666307205, 773529912, 1294757372, 1396182291,
   1695183700, 1986661051, 2177026350, 2456956037, 2730485921, 2820302411,
   3259730800, 3345764771, 3516065817, 3600352804, 4094571909, 275423344,
   430227734, 506948616, 659060556, 883997877, 958139571, 1322822218,
   1537002063, 1747873779, 1955562222, 2024104815, 2227730452, 2361852424,
   2428436474, 2756734187, 3204031479, 3329325298]

/-- SHA-256 initial hash value. -/
def sha256H0 : List Nat :=
  [1779033703, 3144134277, 1013904242, 2773480762, 1359893119, 2600822924, 528734635, 1541459225]

/-- Message-schedule extension step: `w` already holds words `0..i-1`. -/
def sha256ExtendStep (w : List Nat) : Nat :=
  let l := w.length
  let s0 :=
    let x := w.getD (l - 15) 0
    rotr32 7 x ^^^ rotr32 18 x ^^^ shr32 3 x
  let s1 :=
    let x := w.getD (l - 2) 0
    rotr32 17 x ^^^ rotr32 19 x ^^^ shr32 10 x
  (w.getD (l - 16) 0 + s0 + w.getD (l - 7) 0 + s1) % w32

/-- First 16 words (big-endian) of a 64-byte block. -/
def sha256Words16 : List Nat → List Nat
  | b0 :: b1 :: b2 :: b3 :: rest =>
      (((b0 * 256 + b1) * 256 + b2) * 256 + b3) :: sha256Words16 rest
  | _ => []

/-- Full 64-word message schedule of one block. -/
def sha256Schedule (block : List Nat) : List Nat :=
  (List.range 48).foldl (fun w _ => w ++ [sha256ExtendStep w]) (sha256Words16 block)

/-- One compression round; the state is `(a, b, c, d, e, f, g, h)`. -/
def sha256Round (st : List Nat) (kw : Nat × Nat) : List Nat :=
  match st with
  | [a, b, c, d, e, f, g, h] =>
      let s1 := rotr32 6 e ^^^ rotr32 11 e ^^^ rotr32 25 e
      let ch := (e &&& f) ^^^ (not32 e &&& g)
      let t1 := (h + s1 + ch + kw.1 + kw.2) % w32
      let s0 := rotr32 2 a ^^^ rotr32 13 a ^^^ rotr32 22 a
      let maj := (a &&& b) ^^^ (a &&& c) ^^^ (b &&& c)
      let t2 := (s0 + maj) % w32
      [add32 t1 t2, a, b, c, add32 d t1, e, f, g]
  | st => st

/-- Compress one 64-byte block into the running hash. -/
def sha256Compress (h : List Nat) (block : List Nat) : List Nat :=
  let ks := sha256K.zip (sha256Schedule block)
  let out := ks.foldl sha256Round h
  (h.zip out).map fun p => add32 p.1 p.2

/-- Split the padded message into 64-byte blocks. -/
def sha256Blocks (msg : List Nat) : List (List Nat) :=
  if h : msg.length = 0 then []
  else
    have : msg.length - 64 < msg.length := by
      have := Nat.pos_of_ne_zero h
      omega
    msg.take 64 :: sha256Blocks (msg.drop 64)
termination_by msg.length
decreasing_by simpa using this

/-- Big-endian bytes of `n`, `k` bytes wide. -/
def beBytes : Nat → Nat → List Nat
  | 0, _ => []
  | k + 1, n => beBytes k (n / 256) ++ [n % 256]

/-- FIPS 180-4 padding: `0x80`, zeros to 56 mod 64, 64-bit bit length. -/
def sha256Pad (msg : List Nat) : List Nat :=
  let len := msg.length
  let zeros := (119 - len % 64) % 64
  msg ++ [0x80] ++ List.replicate zeros 0 ++ beBytes 8 (8 * len)

/-- SHA-256 digest (as 8 words) of a byte sequence. -/
def sha256Digest (msg : List Nat) : List Nat :=
  (sha256Blocks (sha256Pad msg)).foldl sha256Compress sha256H0

/-- Lower-case hexadecimal digit. -/
def hexDigit (n : Nat) : String :=
  if n = 0 then "0" else if n = 1 then "1" else if n = 2 then "2"
  else if n = 3 then "3" else if n = 4 then "4" else if n = 5 then "5"
  else if n = 6 then "6" else if n = 7 then "7" else if n = 8 then "8"
  else if n = 9 then "9" else if n = 10 then "a" else if n = 11 then "b"
  else if n = 12 then "c" else if n = 13 then "d" else if n = 14 then "e"
  else "f"

/-- Eight-digit hexadecimal rendering of a 32-bit word. -/
def hex8 (n : Nat) : String :=
  hexDigit (n / 16 ^ 7 % 16) ++ hexDigit (n / 16 ^ 6 % 16) ++ hexDigit (n / 16 ^ 5 % 16) ++
  hexDigit (n / 16 ^ 4 % 16) ++ hexDigit (n / 16 ^ 3 % 16) ++ hexDigit (n / 16 ^ 2 % 16) ++
  hexDigit (n / 16 % 16) ++ hexDigit (n % 16)

/-- UTF-8 encoding of one character. -/
def utf8EncodeChar (c : Char) : List Nat :=
  let n := c.toNat
  if n < 0x80 then [n]
  else if n < 0x800 then [0xc0 + n / 64, 0x80 + n % 64]
  else if n < 0x10000 then [0xe0 + n / 4096, 0x80 + n / 64 % 64, 0x80 + n % 64]
  else [0xf0 + n / 262144, 0x80 + n / 4096 % 64, 0x80 + n / 64 % 64, 0x80 + n % 64]

/-- UTF-8 bytes of a string (`crypto.createHash(...).update(string)` hashes
the string's UTF-8 encoding). -/
def utf8Bytes (s : String) : List Nat := (s.toList.map utf8EncodeChar).flatten

/-- Lower-case hexadecimal SHA-256 digest of a string, as produced by
`createHash('sha256').update(s).digest('hex')`. -/
def sha256hex (s : String) : String :=
  String.join ((sha256Digest (utf8Bytes s)).map hex8)

/-! ### Requests and cache keys -/

/-- A JSON-RPC request as the proxy sees it (`method`, `params`, `id`).
`params` is a JavaScript array of JSON values; `id` is a string, number or
`null` per JSON-RPC 2.0. -/
structure JSONRPCRequest where
  method : String
  params : List Json
  id : Json
deriving DecidableEq

/-- JavaScript `x || d` coerced by a template literal: a truthy value prints
via `String(·)`, a falsy or absent one prints as the default `d`. -/
def strOrDefault (v : Option Json) (d : String) : String :=
  match v with
  | some x => if x.truthy then jsToString x else d
  | none => d

/-- The `eth_getLogs` fast path of `CacheManager.getCacheKey`:
`method:address:fromBlock:toBlock:topicsJSON` with defaults
`'' / '0x0' / 'latest' / '[]'`. -/
def getLogsKey (method : String) (address fromBlock toBlock topics : Option Json) : String :=
  method ++ ":" ++ strOrDefault address "" ++ ":" ++ strOrDefault fromBlock "0x0"
    ++ ":" ++ strOrDefault toBlock "latest" ++ ":" ++
    (match topics with
     | some t => if t.truthy then jsonStringify t else "[]"
     | none => "[]")

/-- `CacheManager.getCacheKey` (cache manager source): fast paths for zero
params, one primitive param, `eth_getLogs` single-object filters,
`eth_getBlockReceipts`, and `eth_call` with a `\x7bto, data\x7d` call
object; every other shape falls back to the first 16 hex digits of
`sha256(method + ":" + JSON.stringify(params))`.  An `eth_getLogs` array
param takes the object fast path with every field read yielding
`undefined`, because `typeof [] === 'object'`. -/
def getCacheKey (request : JSONRPCRequest) : String :=
  let method := request.method
  let params := request.params
  if params.length = 0 then method
  else
    let fast1 : Option String :=
      if params.length = 1 then
        let param := params.headD Json.null
        if method = "eth_getLogs" then
          match param with
          | Json.obj fs =>
              some (getLogsKey method (fs.lookup "address") (fs.lookup "fromBlock")
                (fs.lookup "toBlock") (fs.lookup "topics"))
          | Json.arr _ => some (getLogsKey method none none none none)
          | _ => none
        else if method = "eth_getBlockReceipts" then
          some (method ++ ":" ++ jsToString param)
        else
          match param with
          | Json.obj _ => none
          | Json.arr _ => none
          | p => some (method ++ ":" ++ jsToString p)
      else none
    match fast1 with
    | some key => key
    | none =>
        let fast2 : Option String :=
          match params with
          | [callObject, blockTag] =>
              if method = "eth_call" then
                match callObject with
                | Json.obj fs =>
                    if truthyOpt (fs.lookup "to") && truthyOpt (fs.lookup "data") then
                      let blockTagStr :=
                        match blockTag with
                        | Json.obj _ => jsonStringify blockTag
                        | Json.arr _ => jsonStringify blockTag
                        | t => jsToString t
                      some (method ++ ":" ++ jsToString ((fs.lookup "to").getD Json.null)
                        ++ ":" ++ jsToString ((fs.lookup "data").getD Json.null)
                        ++ ":" ++ blockTagStr)
                    else none
                | _ => none
              else none
          | _ => none
        match fast2 with
        | some key => key
        | none => (sha256hex (method ++ ":" ++ jsonStringifyParams params)).take 16

/-- Network key prefix used by `RPCProxy.processSingleRequest`:
`networkKey ? networkKey + ":" : ""`. -/
def keyPfxOf : Option String → String
  | some n => n ++ ":"
  | none => ""

/-- The full cache key computed in `RPCProxy.processSingleRequest`:
network prefix concatenated with `CacheManager.getCacheKey`. -/
def cacheKeyForRequest (networkKey : Option String) (r : JSONRPCRequest) : String :=
  keyPfxOf networkKey ++ getCacheKey r

/-- `RPCProxy.generateInflightKey` (proxy server source): the key of the
in-flight coalescing map.  A single param is coerced with `String(·)` by the
template literal — so any single object param collapses to
`"[object Object]"` — and two or more params serialise via
`JSON.stringify`. -/
def generateInflightKey (pfx : String) (r : JSONRPCRequest) : String :=
  if r.params.length = 0 then pfx ++ r.method
  else if r.params.length = 1 then
    pfx ++ r.method ++ ":" ++ jsToString (r.params.headD Json.null)
  else pfx ++ r.method ++ ":" ++ jsonStringifyParams r.params

/-- The join path of `RPCProxy.processSingleRequest`: when the inflight map
already holds an entry for the request's inflight key, the stored promise is
returned as-is — the joiner is served the leader's settled envelope with no
further transformation. -/
def processSingleRequestJoin (inflight : List (String × Json)) (networkKey : Option String)
    (r : JSONRPCRequest) : Option Json :=
  inflight.lookup (generateInflightKey (keyPfxOf networkKey) r)

/-! ### LRU memory cache (`src/cache/lru-cache.ts`)

A JavaScript `Map` preserves insertion order, and `LRUCache` moves a key to
the end on every read and write, so the backing map is modelled as an
association list ordered from least recently to most recently used. -/

/-- `Map.prototype.get`: first value bound to `k`. -/
def assocFind {K V : Type} [DecidableEq K] : List (K × V) → K → Option V
  | [], _ => none
  | p :: t, k => if p.1 = k then some p.2 else assocFind t k

/-- `Map.prototype.delete`: drop the binding of `k`.  A JavaScript `Map`
holds at most one binding per key, so erasure of every binding coincides
with it on all states the source can construct. -/
def eraseKey {K V : Type} [DecidableEq K] : List (K × V) → K → List (K × V)
  | [], _ => []
  | p :: t, k => if p.1 = k then eraseKey t k else p :: eraseKey t k

/-- The bounded map of `src/cache/lru-cache.ts`. -/
structure LRUCache (K V : Type) where
  maxSize : Nat
  data : List (K × V)
deriving DecidableEq

/-- `LRUCache.has`. -/
def LRUCache.has {K V : Type} [DecidableEq K] (c : LRUCache K V) (k : K) : Bool :=
  (assocFind c.data k).isSome

/-- `LRUCache.get`: returns the value and the cache with `k` marked most
recently used (the source deletes and re-inserts the entry). -/
def LRUCache.get {K V : Type} [DecidableEq K] (c : LRUCache K V) (k : K) :
    Option V × LRUCache K V :=
  match assocFind c.data k with
  | none => (none, c)
  | some v => (some v, ⟨c.maxSize, eraseKey c.data k ++ [(k, v)]⟩)

/-- `LRUCache.set`: when at capacity and the key is new, the first (least
recently used) entry is evicted; then the key is deleted if present and
re-inserted at the most-recently-used end. -/
def LRUCache.set {K V : Type} [DecidableEq K] (c : LRUCache K V) (k : K) (v : V) :
    LRUCache K V :=
  let d0 :=
    if c.data.length ≥ c.maxSize ∧ ¬(assocFind c.data k).isSome then
      match c.data with
      | [] => []
      | _ :: t => t
    else c.data
  ⟨c.maxSize, eraseKey d0 k ++ [(k, v)]⟩

/-- `LRUCache.delete`. -/
def LRUCache.delete {K V : Type} [DecidableEq K] (c : LRUCache K V) (k : K) : LRUCache K V :=
  ⟨c.maxSize, eraseKey c.data k⟩

/-- One client operation on the LRU cache. -/
inductive LruOp (K V : Type) where
  | get (k : K)
  | set (k : K) (v : V)
  | del (k : K)

/-- Apply one operation (the value read by `get` is discarded). -/
def LRUCache.applyOp {K V : Type} [DecidableEq K] (c : LRUCache K V) :
    LruOp K V → LRUCache K V
  | .get k => (c.get k).2
  | .set k v => c.set k v
  | .del k => c.delete k

/-- Run a sequence of operations. -/
def LRUCache.run {K V : Type} [DecidableEq K] (c : LRUCache K V) :
    List (LruOp K V) → LRUCache K V
  | [] => c
  | op :: ops => (c.applyOp op).run ops

/-! ### Cache manager (`CacheManager.getFromCache` / `writeToCache`) -/

/-- A memory-tier cache entry (the compression fields of the source are
never set by the modelled paths and are omitted). -/
structure CacheEntry where
  val : Json
  ts : Nat
  readCnt : Nat
  writeCnt : Nat
deriving DecidableEq

/-- A persistent-tier row; `val` stands for the parsed `JSON.parse(row.val)`
of the stored text. -/
structure DbRow where
  val : Json
  ts : Nat
deriving DecidableEq

/-- The two cache tiers owned by `CacheManager`. -/
structure CacheManagerState where
  cache : LRUCache String CacheEntry
  dbEnabled : Bool
  db : List (String × DbRow)
deriving DecidableEq

/-- Property read `v[k]` on an arbitrary JSON value: `undefined` unless `v`
is an object with field `k`. -/
def jsonGetField (v : Json) (k : String) : Option Json :=
  match v with
  | .obj fs => fs.lookup k
  | _ => none

/-- The envelope test of `CacheManager.getFromCache`: a non-array object
with `jsonrpc === "2.0"` and a `result` or `error` field. -/
def isFullResponse (v : Json) : Bool :=
  match v with
  | .obj fs =>
      fs.hasKey "jsonrpc" && decide (fs.lookup "jsonrpc" = some (Json.str "2.0")) &&
        (fs.hasKey "result" || fs.hasKey "error")
  | _ => false

/-- The age test `isInfinite || age <= maxAgeMs` with
`age = now - entry.ts`; `none` models `Number.POSITIVE_INFINITY`. -/
def ageOk (maxAgeMs : Option Nat) (now ts : Nat) : Bool :=
  match maxAgeMs with
  | none => true
  | some m => decide ((now : Int) - (ts : Int) ≤ (m : Int))

/-- The fresh envelope `\x7bjsonrpc:"2.0", id, result\x7d` built for a bare
stored payload. -/
def wrapResult (requestId : Json) (payload : Json) : Json :=
  Json.obj (.cons "jsonrpc" (.str "2.0") (.cons "id" requestId (.cons "result" payload .nil)))

/-- The serving tail of `CacheManager.getFromCache`: given the value read
from whichever tier hit (`none` when both missed), return the response.  A
`null` payload is a miss; a full envelope is returned with its `id`
overwritten by the current request's id; any other payload is wrapped. -/
def serveVal : Option Json → Json → Option Json
  | none, _ => none
  | some v, requestId =>
      if v = Json.null then none
      else
        match v with
        | Json.obj fs =>
            if isFullResponse (Json.obj fs) then some (Json.obj (fs.setField "id" requestId))
            else some (wrapResult requestId (Json.obj fs))
        | v => some (wrapResult requestId v)

/-- `CacheManager.getFromCache`: memory tier first (a hit bumps `readCnt`
and recency, an expired entry is deleted and the database is not
consulted); on memory miss with the database tier enabled, a fresh row is
promoted into memory and an expired row is deleted from the database. -/
def getFromCache (st : CacheManagerState) (key : String) (maxAgeMs : Option Nat) (now : Nat)
    (requestId : Json) : Option Json × CacheManagerState :=
  if st.cache.has key then
    match st.cache.get key with
    | (some e, cache1) =>
        if ageOk maxAgeMs now e.ts then
          let e' := { e with readCnt := e.readCnt + 1 }
          (serveVal (some e.val) requestId, { st with cache := cache1.set key e' })
        else
          (none, { st with cache := cache1.delete key })
    | (none, _) => (none, st)
  else if st.dbEnabled then
    match assocFind st.db key with
    | some row =>
        if ageOk maxAgeMs now row.ts then
          let entry : CacheEntry := ⟨row.val, row.ts, 1, 0⟩
          (serveVal (some row.val) requestId, { st with cache := st.cache.set key entry })
        else
          (none, { st with db := eraseKey st.db key })
    | none => (none, st)
  else (none, st)

/-- `CacheManager.writeToCache`: build the new entry (carrying over the read
counter and bumping the write counter), upsert the database row when the
database tier is enabled, and always write the memory tier. -/
def writeToCache (st : CacheManagerState) (key : String) (val : Json) (now : Nat) :
    CacheManagerState :=
  let prev := assocFind st.cache.data key
  let entry : CacheEntry :=
    ⟨val, now, ((prev.map CacheEntry.readCnt).getD 0), ((prev.map CacheEntry.writeCnt).getD 0) + 1⟩
  let db' := if st.dbEnabled then eraseKey st.db key ++ [(key, ⟨val, now⟩)] else st.db
  { st with db := db', cache := st.cache.set key entry }

/-- The write guard of `RPCProxy.processSingleRequest` (proxy server
source): an upstream response enters the cache only when the request is
cacheable and `rpcData && rpcData.result !== undefined && rpcData.result
!== null && !rpcData.error`. -/
def shouldCacheUpstream (isCacheable : Bool) (rpcData : Json) : Bool :=
  isCacheable && rpcData.truthy &&
    (match jsonGetField rpcData "result" with
     | none => false
     | some v => decide (v ≠ Json.null)) &&
    !truthyOpt (jsonGetField rpcData "error")

/-! ### Cacheability policy (`CACHEABLE_METHODS`, `resolveCachePolicy`,
`resolveCachePolicyForSubgraph`) -/

/-- A method's caching plan; `maxAgeMs = none` models
`Number.POSITIVE_INFINITY` ("never expires"). -/
structure CachePolicy where
  isCacheable : Bool
  maxAgeMs : Option Nat
deriving DecidableEq

/-- `CACHEABLE_METHODS.INFINITELY_CACHEABLE` from `src/config/constants.ts`. -/
def INFINITELY_CACHEABLE : List String :=
  ["eth_chainId", "net_version", "eth_getTransactionReceipt", "eth_getTransactionByHash"]

/-- `CACHEABLE_METHODS.TIME_CACHEABLE`. -/
def TIME_CACHEABLE : List String := ["eth_blockNumber"]

/-- `CACHEABLE_METHODS.HISTORICAL_CACHEABLE`. -/
def HISTORICAL_CACHEABLE : List String :=
  ["eth_call", "eth_getBlockByNumber", "eth_getLogs", "eth_getStorageAt", "eth_getBalance"]

/-- `RPCProxy.resolveCachePolicy` (proxy server source).  For `eth_call`
the block parameter check is `blockParam && typeof blockParam === 'string'
&& blockParam !== 'latest'` — any non-empty string other than `"latest"`
(including `"earliest"`, `"safe"`, `"finalized"`, `"pending"`) yields an
infinite max age. -/
def resolveCachePolicy (cacheMaxAgeSec : Nat) (r : JSONRPCRequest) : CachePolicy :=
  if INFINITELY_CACHEABLE.contains r.method then ⟨true, none⟩
  else if TIME_CACHEABLE.contains r.method then ⟨true, some (cacheMaxAgeSec * 1000)⟩
  else if HISTORICAL_CACHEABLE.contains r.method then
    let params := r.params
    if r.method = "eth_call" then
      let fixedBlock :=
        match params[1]? with
        | some (Json.str s) => (s != "") && (s != "latest")
        | _ => false
      if fixedBlock then ⟨true, none⟩ else ⟨true, some 30000⟩
    else if r.method = "eth_getBlockByNumber" then
      let fixedBlock :=
        match params[0]? with
        | some (Json.str s) => (s != "") && (s != "latest")
        | _ => false
      if fixedBlock then ⟨true, none⟩ else ⟨false, some 0⟩
    else if r.method = "eth_getLogs" ∨ r.method = "eth_getStorageAt" ∨
        r.method = "eth_getBalance" then
      let hasSpecificBlock := params.any fun p =>
        match p with
        | Json.str s => strBeginsWith s "0x" && (s != "latest")
        | _ => false
      if hasSpecificBlock then ⟨true, none⟩ else ⟨false, some 0⟩
    else ⟨true, none⟩
  else ⟨false, some 0⟩

/-- The `params.find(p => typeof p === 'object' && p !== null)` predicate
of `resolveCachePolicyForSubgraph` (arrays are `typeof 'object'` too). -/
def isObjectParam : Json → Bool
  | Json.obj _ => true
  | Json.arr _ => true
  | _ => false

/-- `RPCProxy.resolveCachePolicyForSubgraph` (`src/services/proxy.ts`).
`eth_call` is infinitely cacheable exactly when the first object-typed param
owns a `blockHash` property or `params[1]` is a truthy string starting with
`0x`. -/
def resolveCachePolicyForSubgraph (cacheMaxAgeSec : Nat) (r : JSONRPCRequest) : CachePolicy :=
  if INFINITELY_CACHEABLE.contains r.method then ⟨true, none⟩
  else if TIME_CACHEABLE.contains r.method then ⟨true, some (cacheMaxAgeSec * 1000)⟩
  else if r.method = "eth_getLogs" then ⟨true, some (cacheMaxAgeSec * 1000)⟩
  else if r.method = "eth_call" then
    let params := r.params
    let callObject := params.find? isObjectParam
    let hasBlockHash :=
      match callObject with
      | some (Json.obj fs) => fs.hasKey "blockHash"
      | _ => false
    let hasBlockNumber :=
      match params[1]? with
      | some (Json.str s) => (s != "") && strBeginsWith s "0x"
      | _ => false
    if hasBlockHash || hasBlockNumber then ⟨true, none⟩ else ⟨false, some 0⟩
  else ⟨false, some 0⟩

/-! ### Quality check (`HTTPClient.shouldTryFallback`,
`HTTPClient.isHistoricalRequest`) -/

/-- The `subgraphCriticalMethods` list of `HTTPClient.shouldTryFallback`. -/
def subgraphCriticalMethods : List String :=
  ["eth_call", "eth_getLogs", "eth_getBlockByNumber", "eth_getBlockByHash",
   "eth_getBlockReceipts", "eth_getTransactionReceipt", "eth_getStorageAt", "eth_getBalance"]

/-- The `historicalBlockParams` keys inspected on object params. -/
def historicalBlockParamKeys : List String :=
  ["fromBlock", "toBlock", "blockNumber", "blockHash"]

/-- `HTTPClient.isHistoricalRequest`: some param is a `0x`-prefixed string
other than `"latest"`/`"pending"`, or an object param has a truthy
`fromBlock`/`toBlock`/`blockNumber`/`blockHash` value other than those two
tags. -/
def isHistoricalRequest (params : List Json) : Bool :=
  params.any fun p =>
    match p with
    | Json.str s => (s != "latest") && (s != "pending") && strBeginsWith s "0x"
    | Json.obj fs =>
        historicalBlockParamKeys.any fun k =>
          match fs.lookup k with
          | some v =>
              v.truthy && decide (v ≠ Json.str "latest") && decide (v ≠ Json.str "pending")
          | none => false
    | _ => false

/-- Chained optional property read `v?.k1?.k2`. -/
def optField (v : Option Json) (k : String) : Option Json :=
  match v with
  | some j => jsonGetField j k
  | none => none

/-- `HTTPClient.shouldTryFallback`: a primary response warrants a fallback
attempt only for the critical methods above and only on historical
requests; it then fires on JSON-RPC error codes `-32000`/`-32801`, a
`null`/absent result, or (for `eth_getLogs`) an empty array result. -/
def shouldTryFallback (requestBody : JSONRPCRequest) (responseData : Json) : Bool :=
  if !(subgraphCriticalMethods.contains requestBody.method) then false
  else
    let isHistorical := isHistoricalRequest requestBody.params
    if isHistorical then
      if optField (jsonGetField responseData "error") "code" = some (Json.num (-32000)) then true
      else if optField (jsonGetField responseData "error") "code" = some (Json.num (-32801)) then
        true
      else if jsonGetField responseData "result" = some Json.null ∨
          jsonGetField responseData "result" = none then true
      else if requestBody.method = "eth_getLogs" ∧
          jsonGetField responseData "result" = some (Json.arr .nil) then true
      else false
    else false

/-! ### Upstream dispatch (`HTTPClient.makeRequest`,
`HTTPClient.makeRequestWithRetry`)

The network side is modelled as streams of per-attempt outcomes, one stream
per upstream: attempt `i` against an upstream either succeeds, throws a
retryable error, or throws an error for which `shouldNotRetry` holds.  The
health flags model the results of the `isUpstreamHealthy` tests at the
corresponding call sites. -/

/-- Result of one HTTP attempt against an upstream. -/
inductive AttemptOutcome where
  | success
  | failRetryable
  | failFatal
deriving DecidableEq

/-- Result of a retry loop: whether it returned a response, and how many
attempts it issued. -/
structure RetryOutcome where
  ok : Bool
  attempts : Nat
deriving DecidableEq

/-- The `for (let attempt = 0; attempt <= retries; attempt++)` loop body of
`HTTPClient.makeRequestWithRetry`: stop on success, stop on a
`shouldNotRetry` error, rethrow when the last attempt fails, otherwise back
off and continue. -/
def retryFrom (out : Nat → AttemptOutcome) (attempt : Nat) : Nat → RetryOutcome
  | 0 => ⟨false, 0⟩
  | remaining + 1 =>
      match out attempt with
      | .success => ⟨true, 1⟩
      | .failFatal => ⟨false, 1⟩
      | .failRetryable =>
          if remaining = 0 then ⟨false, 1⟩
          else
            let r := retryFrom out (attempt + 1) remaining
            ⟨r.ok, r.attempts + 1⟩

/-- `HTTPClient.makeRequestWithRetry`: up to `retries + 1` attempts against
one upstream. -/
def makeRequestWithRetry (retries : Nat) (out : Nat → AttemptOutcome) : RetryOutcome :=
  retryFrom out 0 (retries + 1)

/-- Outcome of `HTTPClient.makeRequest` on a configured network: whether a
response was returned and how many attempts each upstream received. -/
structure NetResult where
  ok : Bool
  primAttempts : Nat
  fbAttempts : Nat
deriving DecidableEq

/-- The network branch of `HTTPClient.makeRequest`: an unhealthy primary is
skipped for the fallback; otherwise the primary runs the full retry loop;
on a fallback-worthy success (`stf`, computed by `shouldTryFallback`) the
fallback runs the retry loop with one direct primary attempt as recovery;
on primary failure the `catch` block runs the fallback retry loop when a
fallback is configured and healthy. -/
def makeRequestNet (retries : Nat) (primHealthy fbConfigured fbHealthy stf : Bool)
    (primOut fbOut : Nat → AttemptOutcome) : NetResult :=
  if ¬primHealthy ∧ fbConfigured then
    let fb1 := makeRequestWithRetry retries fbOut
    if fb1.ok then ⟨true, 0, fb1.attempts⟩
    else if fbConfigured ∧ fbHealthy then
      let fb2 := makeRequestWithRetry retries fun i => fbOut (fb1.attempts + i)
      ⟨fb2.ok, 0, fb1.attempts + fb2.attempts⟩
    else ⟨false, 0, fb1.attempts⟩
  else
    let p1 := makeRequestWithRetry retries primOut
    if p1.ok then
      if stf ∧ fbConfigured ∧ fbHealthy then
        let fb1 := makeRequestWithRetry retries fbOut
        if fb1.ok then ⟨true, p1.attempts, fb1.attempts⟩
        else
          match primOut p1.attempts with
          | .success => ⟨true, p1.attempts + 1, fb1.attempts⟩
          | _ =>
              let fb2 := makeRequestWithRetry retries fun i => fbOut (fb1.attempts + i)
              ⟨fb2.ok, p1.attempts + 1, fb1.attempts + fb2.attempts⟩
      else ⟨true, p1.attempts, 0⟩
    else if fbConfigured ∧ fbHealthy then
      let fb := makeRequestWithRetry retries fbOut
      ⟨fb.ok, p1.attempts, fb.attempts⟩
    else ⟨false, p1.attempts, 0⟩

/-- `DEFAULT_VALUES.RPC_RETRIES` from `src/config/constants.ts`: the retry
count `HTTPClient.makeRequest` uses when the caller passes none. -/
def RPC_RETRIES_DEFAULT : Nat := 10

/-! ### Statement-side definitions

`specQualityCriticalSet` and `paramsStructEq` express notions used by the
specification's claims (they are compared against the embedded source
functions; no embedded function is defined from them). -/

/-- The critical method set as the specification's quality-check section
states it (twelve methods). -/
def specQualityCriticalSet : List String :=
  ["eth_call", "eth_getLogs", "eth_getBlockByNumber", "eth_getBlockByHash",
   "eth_getBlockReceipts", "eth_getTransactionReceipt", "eth_getStorageAt", "eth_getBalance",
   "eth_getCode", "eth_getTransactionByHash", "eth_getTransactionByBlockHashAndIndex",
   "eth_getTransactionByBlockNumberAndIndex"]

/-- Structural equality of two param arrays: elementwise equality of JSON
data up to object key order. -/
def paramsStructEq (ps qs : List Json) : Prop :=
  ps.map Json.canon = qs.map Json.canon

instance (ps qs : List Json) : Decidable (paramsStructEq ps qs) := by
  unfold paramsStructEq; infer_instance

/-! ### Concrete fixtures used by counterexamples and witnesses -/

/-- An `eth_call` whose block-tag object lists `blockHash` first. -/
def ethCallTagOrderA : JSONRPCRequest :=
  ⟨"eth_call",
   [Json.obj (.cons "to" (.str "0x833589fCD6eDb6E08f4c7C32D4f71b54bdA02913")
      (.cons "data" (.str "0x18160ddd") .nil)),
    Json.obj (.cons "blockHash" (.str "0xabc123") (.cons "requireCanonical" (.bool true) .nil))],
   Json.num 1⟩

/-- The same `eth_call` with the block-tag object keys in the other order. -/
def ethCallTagOrderB : JSONRPCRequest :=
  ⟨"eth_call",
   [Json.obj (.cons "to" (.str "0x833589fCD6eDb6E08f4c7C32D4f71b54bdA02913")
      (.cons "data" (.str "0x18160ddd") .nil)),
    Json.obj (.cons "requireCanonical" (.bool true) (.cons "blockHash" (.str "0xabc123") .nil))],
   Json.num 1⟩

/-- A one-param request whose param is the number `1`. -/
def numParamReq : JSONRPCRequest := ⟨"eth_getBlockReceipts", [Json.num 1], Json.num 5⟩

/-- A one-param request whose param is the string `"1"`. -/
def strParamReq : JSONRPCRequest := ⟨"eth_getBlockReceipts", [Json.str "1"], Json.num 5⟩

/-- An `eth_getLogs` request filtering on one contract address. -/
def getLogsReqA : JSONRPCRequest :=
  ⟨"eth_getLogs", [Json.obj (.cons "address" (.str "0xaaa") .nil)], Json.num 1⟩

/-- An `eth_getLogs` request filtering on a different contract address. -/
def getLogsReqB : JSONRPCRequest :=
  ⟨"eth_getLogs", [Json.obj (.cons "address" (.str "0xbbb") .nil)], Json.num 2⟩

/-- The leader request of the coalescing scenario. -/
def leaderReq : JSONRPCRequest := ⟨"eth_blockNumber", [], Json.num 1⟩

/-- A joiner issuing the same call under its own id. -/
def joinerReq : JSONRPCRequest := ⟨"eth_blockNumber", [], Json.num 2⟩

/-- The envelope the leader's upstream attempt settles with. -/
def leaderEnv : Json :=
  Json.obj (.cons "jsonrpc" (.str "2.0") (.cons "id" (.num 1) (.cons "result" (.str "0x10") .nil)))

/-- An `eth_getCode` request pinned to a hex block. -/
def getCodeReq : JSONRPCRequest :=
  ⟨"eth_getCode", [Json.str "0x833589fCD6eDb6E08f4c7C32D4f71b54bdA02913", Json.str "0xF4240"],
   Json.num 7⟩

/-- A success envelope whose result is `null`. -/
def nullResultResp : Json :=
  Json.obj (.cons "jsonrpc" (.str "2.0") (.cons "id" (.num 7) (.cons "result" Json.null .nil)))

/-- An `eth_call` request pinned to a hex block. -/
def ethCallHexReq : JSONRPCRequest :=
  ⟨"eth_call",
   [Json.obj (.cons "to" (.str "0x1") (.cons "data" (.str "0x2") .nil)), Json.str "0xF4240"],
   Json.num 8⟩

/-- A success envelope whose result is the empty string. -/
def emptyStrResultResp : Json :=
  Json.obj (.cons "jsonrpc" (.str "2.0") (.cons "id" (.num 8) (.cons "result" (.str "") .nil)))

/-- An `eth_call` carrying the ambiguous block tag `"earliest"`. -/
def ethCallEarliestReq : JSONRPCRequest :=
  ⟨"eth_call",
   [Json.obj (.cons "to" (.str "0x1") (.cons "data" (.str "0x2") .nil)), Json.str "earliest"],
   Json.num 9⟩

/-- A memory tier holding one entry written at time 0. -/
def memState (e : CacheEntry) : CacheManagerState :=
  ⟨⟨100, [("k", e)]⟩, false, []⟩

/-- A cold memory tier over a database tier holding one row. -/
def dbState (row : DbRow) : CacheManagerState :=
  ⟨⟨100, []⟩, true, [("k", row)]⟩

/-- An entry whose payload is a full JSON-RPC envelope under a stale id. -/
def fullEnvEntry : CacheEntry :=
  ⟨Json.obj (.cons "jsonrpc" (.str "2.0") (.cons "id" (.num 99) (.cons "result" (.str "0x1") .nil))),
   0, 0, 1⟩

/-- An entry whose payload is a bare (legacy-form) result. -/
def bareEntry : CacheEntry := ⟨Json.str "0x2a", 0, 0, 1⟩

/-- An entry whose payload is `null`. -/
def nullEntry : CacheEntry := ⟨Json.null, 0, 0, 1⟩

/-! ### Theorems -/

/-- C1 — counterexample.  The claim fails in both directions on
`CacheManager.getCacheKey`.  (a) Two `eth_call` requests on the same
network with the same method, the same id, and structurally equal params —
the block-tag object's keys merely appear in different orders — receive
different cache keys, because the fast path serialises the block tag with
`JSON.stringify`, which preserves key order.  (b) Two requests whose params
differ structurally (`[1]` versus `["1"]`) receive the same cache key,
because the single-param fast path coerces the param with `String(·)`. -/
theorem claim1_counterexample :
    (paramsStructEq ethCallTagOrderA.params ethCallTagOrderB.params ∧
      ethCallTagOrderA.method = ethCallTagOrderB.method ∧
      ethCallTagOrderA.id = ethCallTagOrderB.id ∧
      cacheKeyForRequest (some "base-mainnet") ethCallTagOrderA ≠
        cacheKeyForRequest (some "base-mainnet") ethCallTagOrderB) ∧
    (numParamReq.method = strParamReq.method ∧ numParamReq.params ≠ strParamReq.params ∧
      cacheKeyForRequest (some "base-mainnet") numParamReq =
        cacheKeyForRequest (some "base-mainnet") strParamReq) := by
  constructor
  · exact ⟨by decide, rfl, rfl, by decide⟩
  · exact ⟨rfl, by decide, by decide⟩

/-- C1 — amended claim.  What does hold of the cache key: it is a
deterministic function of the network key, the method and the exact param
array, and it never depends on the request id.  (Canonicalisation over
object key order and injectivity both fail, as the counterexample shows.) -/
theorem claim1_amended (net : Option String) (m : String) (ps : List Json) (i j : Json) :
    cacheKeyForRequest net ⟨m, ps, i⟩ = cacheKeyForRequest net ⟨m, ps, j⟩ := rfl

/-- C2 — the code violates the claim.  Two `eth_getLogs` requests with
different filters (different fingerprints) are assigned the same inflight
key, because `generateInflightKey` coerces a single object param with
`String(·)`, collapsing every filter to `"[object Object]"`; so the second
request joins the first one's in-flight entry and is served the first
filter's response. -/
theorem claim2_bug :
    generateInflightKey "base-mainnet:" getLogsReqA = generateInflightKey "base-mainnet:" getLogsReqB ∧
    cacheKeyForRequest (some "base-mainnet") getLogsReqA ≠
      cacheKeyForRequest (some "base-mainnet") getLogsReqB ∧
    processSingleRequestJoin [(generateInflightKey "base-mainnet:" getLogsReqA, leaderEnv)]
      (some "base-mainnet") getLogsReqB = some leaderEnv := by
  refine ⟨by decide, by decide, by decide⟩

/-- C3 — the code violates the claim.  A joiner that finds an existing
in-flight entry is returned the stored promise unchanged
(`return this.inflight.get(inflightKey)!`): the envelope it is served is
exactly the leader's envelope, still carrying the leader's id `1` instead
of the joiner's id `2`. -/
theorem claim3_bug :
    processSingleRequestJoin [(generateInflightKey "base-mainnet:" leaderReq, leaderEnv)]
      (some "base-mainnet") joinerReq = some leaderEnv ∧
    jsonGetField leaderEnv "id" = some (Json.num 1) ∧
    joinerReq.id = Json.num 2 ∧ Json.num 1 ≠ Json.num 2 := by
  refine ⟨by decide, by decide, rfl, by decide⟩

/-- C4 — the code violates the claim (and its own README, which promises
"no retries on primary — immediate failover").  With `retries = 2` and a
primary that keeps failing with retryable transport errors, the dispatcher
issues three attempts to the primary before entering the fallback path; with
the default `rpc.retries = 10` it issues eleven. -/
theorem claim4_bug :
    (makeRequestNet 2 true true true false (fun _ => .failRetryable)
        (fun _ => .success)).primAttempts = 3 ∧
    (makeRequestNet RPC_RETRIES_DEFAULT true true true false (fun _ => .failRetryable)
        (fun _ => .success)).primAttempts = 11 ∧
    (3 : Nat) ≠ 1 := by
  refine ⟨by decide, by decide, by decide⟩

/-- C5 — counterexample.  `eth_getCode` belongs to the claim's critical set,
yet `HTTPClient.shouldTryFallback` never marks it fallback-worthy — the
source's `subgraphCriticalMethods` list has only eight entries — and even
for `eth_call` (present in both sets) an empty-string result is not
fallback-worthy, since the source only tests for `null`/`undefined`. -/
theorem claim5_counterexample :
    specQualityCriticalSet.contains "eth_getCode" = true ∧
    isHistoricalRequest getCodeReq.params = true ∧
    jsonGetField nullResultResp "result" = some Json.null ∧
    shouldTryFallback getCodeReq nullResultResp = false ∧
    specQualityCriticalSet.contains "eth_call" = true ∧
    isHistoricalRequest ethCallHexReq.params = true ∧
    jsonGetField emptyStrResultResp "result" = some (Json.str "") ∧
    shouldTryFallback ethCallHexReq emptyStrResultResp = false := by
  refine ⟨by decide, by decide, by decide, by decide, by decide, by decide, by decide, by decide⟩

/-- C5 — amended claim.  What `HTTPClient.shouldTryFallback` actually
implements: a response is fallback-worthy iff the method is in the
source's eight-method critical set, the request is historical
(per `isHistoricalRequest`), and either the error code is `-32000` or
`-32801`, or the result is `null`/absent, or the method is `eth_getLogs`
and the result is the empty array.  An empty-string result is never
fallback-worthy, and non-historical requests never are. -/
theorem claim5_amended (req : JSONRPCRequest) (resp : Json) :
    shouldTryFallback req resp = true ↔
      (subgraphCriticalMethods.contains req.method = true ∧
        isHistoricalRequest req.params = true ∧
        (optField (jsonGetField resp "error") "code" = some (Json.num (-32000)) ∨
         optField (jsonGetField resp "error") "code" = some (Json.num (-32801)) ∨
         jsonGetField resp "result" = some Json.null ∨
         jsonGetField resp "result" = none ∨
         (req.method = "eth_getLogs" ∧ jsonGetField resp "result" = some (Json.arr .nil)))) := by
  cases hm : subgraphCriticalMethods.contains req.method with
  | false =>
    have hm' : ¬(req.method ∈ subgraphCriticalMethods) := by simpa using hm
    simp [shouldTryFallback, hm, hm']
  | true =>
    cases hh : isHistoricalRequest req.params with
    | false => simp [shouldTryFallback, hm, hh]
    | true =>
      simp only [shouldTryFallback, hm, hh, Bool.not_true, Bool.false_eq_true, if_false]
      split_ifs with h1 h2 h3 h4 <;> simp_all <;> tauto

/-- C6 — counterexample.  `RPCProxy.resolveCachePolicy` treats an
`eth_call` pinned to the ambiguous tag `"earliest"` as historical and
returns an infinite max age (`maxAgeMs = none` models
`Number.POSITIVE_INFINITY`), contradicting both directions of the claim:
the tag is neither a hex `0x` tag nor a `blockHash` reference. -/
theorem claim6_counterexample :
    (resolveCachePolicy 10 ethCallEarliestReq).maxAgeMs = none ∧
    (resolveCachePolicy 10 ethCallEarliestReq).isCacheable = true := by
  refine ⟨by decide, by decide⟩

/-- C6 — amended claim.  `resolveCachePolicy` gives `eth_call` an infinite
max age iff `params[1]` is a non-empty string other than `"latest"` — so
`"earliest"`, `"safe"`, `"finalized"` and `"pending"` are all cached
forever, and a `blockHash` in the call object is ignored — while
`resolveCachePolicyForSubgraph` implements the rule as the claim states it:
infinite iff `params[1]` is a non-empty `0x` string or the first
object-typed param owns `blockHash`. -/
theorem claim6_amended (cacheMaxAgeSec : Nat) (r : JSONRPCRequest) (h : r.method = "eth_call") :
    ((resolveCachePolicy cacheMaxAgeSec r).maxAgeMs = none ↔
      (∃ s, r.params[1]? = some (Json.str s) ∧ s ≠ "" ∧ s ≠ "latest")) ∧
    ((resolveCachePolicyForSubgraph cacheMaxAgeSec r).maxAgeMs = none ↔
      ((∃ fs, r.params.find? isObjectParam = some (Json.obj fs) ∧ fs.hasKey "blockHash" = true) ∨
       (∃ s, r.params[1]? = some (Json.str s) ∧ s ≠ "" ∧ strBeginsWith s "0x" = true))) := by
  obtain ⟨m, ps, i⟩ := r
  subst h
  constructor
  · rcases h1 : ps[1]? with _ | v
    · simp [resolveCachePolicy, INFINITELY_CACHEABLE, TIME_CACHEABLE, HISTORICAL_CACHEABLE, h1]
    · rcases v with _ | b | n | s | xs | fs <;>
        simp [resolveCachePolicy, INFINITELY_CACHEABLE, TIME_CACHEABLE, HISTORICAL_CACHEABLE, h1]
      by_cases hs1 : s = "" <;> by_cases hs2 : s = "latest" <;> simp_all [bne]
  · rcases h2 : ps.find? isObjectParam with _ | w
    · rcases h1 : ps[1]? with _ | v
      · simp [resolveCachePolicyForSubgraph, INFINITELY_CACHEABLE, TIME_CACHEABLE, h1, h2]
      · rcases v with _ | b | n | s | xs | fs <;>
          simp [resolveCachePolicyForSubgraph, INFINITELY_CACHEABLE, TIME_CACHEABLE, h1, h2]
        by_cases hs1 : s = "" <;> cases hb : strBeginsWith s "0x" <;> simp_all [bne]
    · have hw : isObjectParam w = true := List.find?_some h2
      rcases w with _ | b | n | s' | xs | fso <;> simp [isObjectParam] at hw
      · rcases h1 : ps[1]? with _ | v
        · simp [resolveCachePolicyForSubgraph, INFINITELY_CACHEABLE, TIME_CACHEABLE, h1, h2]
        · rcases v with _ | b2 | n2 | s | xs2 | fs2 <;>
            simp [resolveCachePolicyForSubgraph, INFINITELY_CACHEABLE, TIME_CACHEABLE, h1, h2]
          by_cases hs1 : s = "" <;> cases hb : strBeginsWith s "0x" <;> simp_all [bne]
      · cases hk : fso.hasKey "blockHash"
        · rcases h1 : ps[1]? with _ | v
          · simp [resolveCachePolicyForSubgraph, INFINITELY_CACHEABLE, TIME_CACHEABLE, h1, h2, hk]
          · rcases v with _ | b2 | n2 | s | xs2 | fs2 <;>
              simp [resolveCachePolicyForSubgraph, INFINITELY_CACHEABLE, TIME_CACHEABLE, h1, h2,
                hk]
            by_cases hs1 : s = "" <;> cases hb : strBeginsWith s "0x" <;> simp_all [bne]
        · simp [resolveCachePolicyForSubgraph, INFINITELY_CACHEABLE, TIME_CACHEABLE, h2, hk]

/-- C6 — witness.  A hex-pinned `eth_call` gets an infinite max age from
both policy functions. -/
theorem claim6_witness :
    (resolveCachePolicy 10 ethCallHexReq).maxAgeMs = none ∧
    (resolveCachePolicyForSubgraph 10 ethCallHexReq).maxAgeMs = none :=
  ⟨(claim6_amended 10 ethCallHexReq rfl).1.mpr ⟨"0xF4240", by decide, by decide, by decide⟩,
   (claim6_amended 10 ethCallHexReq rfl).2.mpr
     (Or.inr ⟨"0xF4240", by decide, by decide, by decide⟩)⟩

/-- Erasing a key removes every binding of it. -/
theorem assocFind_eraseKey_self {K V : Type} [DecidableEq K] (l : List (K × V)) (k : K) :
    assocFind (eraseKey l k) k = none := by
  induction l with
  | nil => rfl
  | cons p t ih => by_cases h : p.1 = k <;> simp [eraseKey, h, assocFind, ih]

/-- Erasing an absent key is the identity. -/
theorem eraseKey_of_find_none {K V : Type} [DecidableEq K] {l : List (K × V)} {k : K}
    (h : assocFind l k = none) : eraseKey l k = l := by
  induction l with
  | nil => rfl
  | cons p t ih =>
      by_cases hp : p.1 = k
      · simp [assocFind, hp] at h
      · simp [assocFind, hp] at h
        simp [eraseKey, hp, ih h]

/-- An absent key is also absent from the tail. -/
theorem assocFind_tail_none {K V : Type} [DecidableEq K] {l : List (K × V)} {k : K}
    (h : assocFind l k = none) : assocFind l.tail k = none := by
  cases l with
  | nil => rfl
  | cons p t =>
      by_cases hp : p.1 = k
      · simp [assocFind, hp] at h
      · simpa [assocFind, hp] using h

/-- Erasure never lengthens the list. -/
theorem eraseKey_length_le {K V : Type} [DecidableEq K] (l : List (K × V)) (k : K) :
    (eraseKey l k).length ≤ l.length := by
  induction l with
  | nil => exact Nat.le_refl 0
  | cons p t ih =>
      by_cases h : p.1 = k <;> simp [eraseKey, h] <;> omega

/-- Erasing a present key strictly shortens the list. -/
theorem eraseKey_length_lt_of_found {K V : Type} [DecidableEq K] {l : List (K × V)} {k : K}
    {v : V} (h : assocFind l k = some v) : (eraseKey l k).length < l.length := by
  induction l with
  | nil => simp [assocFind] at h
  | cons p t ih =>
      by_cases hp : p.1 = k
      · simp [eraseKey, hp]
        have := eraseKey_length_le t k
        omega
      · simp [assocFind, hp] at h
        have := ih h
        simp [eraseKey, hp]
        omega

/-- C7 — TTL soundness of `CacheManager.getFromCache`.  With a finite max
age, an entry whose age strictly exceeds it is never served: the lookup
misses and the expired entry is deleted from the tier on which it was found
(memory first conjunct, database second).  With an infinite max age
(`none`), a memory entry is served through the serving-form tail regardless
of its age (third conjunct). -/
theorem claim7_ttl (st : CacheManagerState) (key : String) (ma now : Nat) (rid : Json) :
    (∀ e : CacheEntry, assocFind st.cache.data key = some e →
        (ma : Int) < (now : Int) - (e.ts : Int) →
        (getFromCache st key (some ma) now rid).1 = none ∧
          (getFromCache st key (some ma) now rid).2.cache.has key = false) ∧
    (st.cache.has key = false → st.dbEnabled = true →
        ∀ row : DbRow, assocFind st.db key = some row →
        (ma : Int) < (now : Int) - (row.ts : Int) →
        (getFromCache st key (some ma) now rid).1 = none ∧
          assocFind (getFromCache st key (some ma) now rid).2.db key = none) ∧
    (∀ e : CacheEntry, assocFind st.cache.data key = some e →
        (getFromCache st key none now rid).1 = serveVal (some e.val) rid) := by
  refine ⟨?_, ?_, ?_⟩
  · intro e hfind hage
    have hhas : st.cache.has key = true := by simp [LRUCache.has, hfind]
    have hget : st.cache.get key =
        (some e, ⟨st.cache.maxSize, eraseKey st.cache.data key ++ [(key, e)]⟩) := by
      simp [LRUCache.get, hfind]
    have hstale : ageOk (some ma) now e.ts = false := by
      simp only [ageOk, decide_eq_false_iff_not]
      omega
    simp only [getFromCache, hhas, if_true, hget, hstale, Bool.false_eq_true, if_false]
    refine ⟨trivial, ?_⟩
    simp [LRUCache.delete, LRUCache.has, assocFind_eraseKey_self]
  · intro hhas hdb row hfind hage
    have hstale : ageOk (some ma) now row.ts = false := by
      simp only [ageOk, decide_eq_false_iff_not]
      omega
    simp only [getFromCache, hhas, Bool.false_eq_true, if_false, hdb, if_true, hfind, hstale]
    exact ⟨trivial, assocFind_eraseKey_self st.db key⟩
  · intro e hfind
    have hhas : st.cache.has key = true := by simp [LRUCache.has, hfind]
    have hget : st.cache.get key =
        (some e, ⟨st.cache.maxSize, eraseKey st.cache.data key ++ [(key, e)]⟩) := by
      simp [LRUCache.get, hfind]
    simp [getFromCache, hhas, hget, ageOk]

/-- C7 — witness.  A memory entry written at time `0` and looked up at time
`100` with `maxAge = 5` is neither served nor kept. -/
theorem claim7_witness :
    (getFromCache (memState bareEntry) "k" (some 5) 100 (Json.num 1)).1 = none ∧
    (getFromCache (memState bareEntry) "k" (some 5) 100 (Json.num 1)).2.cache.has "k" = false :=
  (claim7_ttl (memState bareEntry) "k" 5 100 (Json.num 1)).1 bareEntry (by decide) (by decide)

/-- Overwriting a field makes it read back as the new value. -/
theorem setField_lookup_self : ∀ (fs : JsonFields) (k : String) (v : Json),
    (fs.setField k v).lookup k = some v
  | .nil, k, v => by simp [JsonFields.setField, JsonFields.lookup]
  | .cons k' v' t, k, v => by
      by_cases h : k' = k <;>
        simp [JsonFields.setField, h, JsonFields.lookup, setField_lookup_self t k v]

/-- Overwriting a field leaves every other field unchanged. -/
theorem setField_lookup_other : ∀ (fs : JsonFields) (k : String) (v : Json) (k2 : String),
    k2 ≠ k → (fs.setField k v).lookup k2 = fs.lookup k2
  | .nil, k, v, k2, hne => by simp [JsonFields.setField, JsonFields.lookup, Ne.symm hne]
  | .cons k' v' t, k, v, k2, hne => by
      by_cases h : k' = k
      · subst h
        simp [JsonFields.setField, JsonFields.lookup, Ne.symm hne]
      · simp [JsonFields.setField, h, JsonFields.lookup, setField_lookup_other t k v k2 hne]

/-- C8 — serving-form rule of `CacheManager.getFromCache`.  A fresh memory
hit is served through `serveVal`; when the stored payload is a full
JSON-RPC envelope the served response is that envelope with exactly its
`id` field overwritten by the current request's id (every other top-level
field reads back unchanged); any other non-`null` payload is wrapped as
`\x7bjsonrpc:"2.0", id, result: payload\x7d`. -/
theorem claim8_serving (st : CacheManagerState) (key : String) (ma : Option Nat) (now : Nat)
    (rid : Json) (e : CacheEntry) (hfind : assocFind st.cache.data key = some e)
    (hfresh : ageOk ma now e.ts = true) :
    (getFromCache st key ma now rid).1 = serveVal (some e.val) rid ∧
    (∀ fs, e.val = Json.obj fs → isFullResponse e.val = true →
        serveVal (some e.val) rid = some (Json.obj (fs.setField "id" rid)) ∧
        (fs.setField "id" rid).lookup "id" = some rid ∧
        (∀ k2, k2 ≠ "id" → (fs.setField "id" rid).lookup k2 = fs.lookup k2)) ∧
    (isFullResponse e.val = false → e.val ≠ Json.null →
        serveVal (some e.val) rid = some (wrapResult rid e.val)) := by
  refine ⟨?_, ?_, ?_⟩
  · have hhas : st.cache.has key = true := by simp [LRUCache.has, hfind]
    have hget : st.cache.get key =
        (some e, ⟨st.cache.maxSize, eraseKey st.cache.data key ++ [(key, e)]⟩) := by
      simp [LRUCache.get, hfind]
    simp [getFromCache, hhas, hget, hfresh]
  · intro fs hfs hfull
    rw [hfs] at hfull ⊢
    refine ⟨by simp [serveVal, hfull], setField_lookup_self fs "id" rid,
      fun k2 hk2 => setField_lookup_other fs "id" rid k2 hk2⟩
  · intro hnf hnn
    rcases hv : e.val with _ | b | n | s | xs | fs <;> rw [hv] at hnf hnn <;>
      simp [serveVal, hnf]
    exact absurd rfl hnn

/-- C8 — witness.  A stored full envelope under stale id `99`, looked up
for request id `2`, is served with `id = 2` and its other fields intact. -/
theorem claim8_witness :
    (getFromCache (memState fullEnvEntry) "k" none 50 (Json.num 2)).1 =
      some (Json.obj (.cons "jsonrpc" (.str "2.0")
        (.cons "id" (.num 2) (.cons "result" (.str "0x1") .nil)))) :=
  ((claim8_serving (memState fullEnvEntry) "k" none 50 (Json.num 2) fullEnvEntry
      (by decide) (by decide)).1).trans (by decide)

/-- C10 — null payloads never cross the cache boundary.  A stored `null`
payload is a miss on either tier regardless of age or max age, and the
dispatcher's write guard rejects any response whose `result` is absent or
`null` or that carries a truthy `error` field. -/
theorem claim10_nullsafety (st : CacheManagerState) (key : String) (ma : Option Nat) (now : Nat)
    (rid : Json) :
    (∀ e : CacheEntry, assocFind st.cache.data key = some e → e.val = Json.null →
        (getFromCache st key ma now rid).1 = none) ∧
    (st.cache.has key = false → st.dbEnabled = true →
        ∀ row : DbRow, assocFind st.db key = some row → row.val = Json.null →
        (getFromCache st key ma now rid).1 = none) ∧
    (∀ (cacheable : Bool) (rpc : Json),
        (jsonGetField rpc "result" = none ∨ jsonGetField rpc "result" = some Json.null ∨
          truthyOpt (jsonGetField rpc "error") = true) →
        shouldCacheUpstream cacheable rpc = false) := by
  refine ⟨?_, ?_, ?_⟩
  · intro e hfind hnull
    have hhas : st.cache.has key = true := by simp [LRUCache.has, hfind]
    have hget : st.cache.get key =
        (some e, ⟨st.cache.maxSize, eraseKey st.cache.data key ++ [(key, e)]⟩) := by
      simp [LRUCache.get, hfind]
    cases hfresh : ageOk ma now e.ts <;>
      simp [getFromCache, hhas, hget, hfresh, hnull, serveVal]
  · intro hhas hdb row hfind hnull
    cases hfresh : ageOk ma now row.ts <;>
      simp [getFromCache, hhas, hdb, hfind, hfresh, hnull, serveVal]
  · intro cacheable rpc hbad
    rcases hbad with h | h | h <;> simp [shouldCacheUpstream, h]

/-- C10 — witness.  A stored `null` payload misses, and a `null`-result
envelope is refused by the write guard. -/
theorem claim10_witness :
    (getFromCache (memState nullEntry) "k" none 10 (Json.num 1)).1 = none ∧
    shouldCacheUpstream true nullResultResp = false :=
  ⟨(claim10_nullsafety (memState nullEntry) "k" none 10 (Json.num 1)).1 nullEntry
      (by decide) (by decide),
   (claim10_nullsafety (memState nullEntry) "k" none 10 (Json.num 1)).2.2 true nullResultResp
      (Or.inr (Or.inl (by decide)))⟩

/-- C9 — counterexample.  With `maxSize = 0` the eviction step is a no-op
on an empty map (`firstKey` is `undefined`), yet the insertion still
happens, so the size reaches `1 > 0`: the bound fails for a configured
`maxSize` of zero (`cache.maxSize` is read from configuration with no lower
bound imposed). -/
theorem claim9_counterexample :
    ((⟨0, []⟩ : LRUCache String Nat).set "a" 1).data.length = 1 ∧
    (⟨0, []⟩ : LRUCache String Nat).maxSize = 0 ∧ (0 : Nat) < 1 := by
  exact ⟨by decide, rfl, by decide⟩

/-- `set` keeps the configured capacity. -/
theorem LRUCache_set_maxSize {K V : Type} [DecidableEq K] (c : LRUCache K V) (k : K) (v : V) :
    (c.set k v).maxSize = c.maxSize := rfl

/-- `set` preserves the size bound whenever the capacity is positive. -/
theorem LRUCache_set_length_le {K V : Type} [DecidableEq K] (c : LRUCache K V) (k : K) (v : V)
    (hmax : 1 ≤ c.maxSize) (hlen : c.data.length ≤ c.maxSize) :
    (c.set k v).data.length ≤ c.maxSize := by
  unfold LRUCache.set
  by_cases hcond : c.data.length ≥ c.maxSize ∧ ¬(assocFind c.data k).isSome
  · rw [if_pos hcond]
    cases hd : c.data with
    | nil =>
        rw [hd] at hcond
        simp at hcond
        omega
    | cons p t =>
        have h1 := eraseKey_length_le t k
        have h2 : (p :: t).length ≤ c.maxSize := hd ▸ hlen
        simp only [List.length_append, List.length_cons] at h2 ⊢
        simp at h2 ⊢
        omega
  · rw [if_neg hcond]
    rcases Decidable.not_and_iff_or_not.mp hcond with h | h
    · have hlt : c.data.length < c.maxSize := by omega
      have h1 := eraseKey_length_le c.data k
      simp only [List.length_append, List.length_cons, List.length_nil]
      omega
    · rcases hf : assocFind c.data k with _ | v0
      · rw [hf] at h
        simp at h
      · have h1 := eraseKey_length_lt_of_found hf
        simp only [List.length_append, List.length_cons, List.length_nil]
        omega

/-- `get` preserves the size bound. -/
theorem LRUCache_get_length_le {K V : Type} [DecidableEq K] (c : LRUCache K V) (k : K)
    (hlen : c.data.length ≤ c.maxSize) : (c.get k).2.data.length ≤ c.maxSize := by
  unfold LRUCache.get
  rcases hf : assocFind c.data k with _ | v0
  · exact hlen
  · have h1 := eraseKey_length_lt_of_found hf
    simp only [List.length_append, List.length_cons, List.length_nil]
    omega

/-- `get` keeps the configured capacity. -/
theorem LRUCache_get_maxSize {K V : Type} [DecidableEq K] (c : LRUCache K V) (k : K) :
    (c.get k).2.maxSize = c.maxSize := by
  unfold LRUCache.get
  rcases hf : assocFind c.data k with _ | v0 <;> rfl

/-- C9 — amended claim.  For every positive capacity the memory cache's
size never exceeds `maxSize` under any sequence of `get`/`set`/`delete`
operations (reads and writes both refresh recency, so the head of the
backing list is always the least recently used entry), and a `set` of a new
key at capacity drops exactly that head before inserting the new binding at
the most-recently-used end.  For `maxSize = 0` the bound fails, as the
counterexample shows. -/
theorem claim9_amended {K V : Type} [DecidableEq K] :
    (∀ (c : LRUCache K V) (ops : List (LruOp K V)), 1 ≤ c.maxSize → c.data.length ≤ c.maxSize →
        ((c.run ops).data.length ≤ c.maxSize ∧ (c.run ops).maxSize = c.maxSize)) ∧
    (∀ (c : LRUCache K V) (k : K) (v : V), c.data.length = c.maxSize → c.has k = false →
        (c.set k v).data = c.data.tail ++ [(k, v)]) := by
  constructor
  · intro c ops
    induction ops generalizing c with
    | nil => exact fun _ h2 => ⟨h2, rfl⟩
    | cons op t ih =>
        intro h1 h2
        have hstep : (c.applyOp op).data.length ≤ c.maxSize ∧ (c.applyOp op).maxSize = c.maxSize := by
          cases op with
          | get k => exact ⟨LRUCache_get_length_le c k h2, LRUCache_get_maxSize c k⟩
          | set k v => exact ⟨LRUCache_set_length_le c k v h1 h2, rfl⟩
          | del k =>
              refine ⟨?_, rfl⟩
              have := eraseKey_length_le c.data k
              simp only [LRUCache.applyOp, LRUCache.delete]
              omega
        have hrec := ih (c.applyOp op) (hstep.2 ▸ h1) (hstep.2 ▸ hstep.1)
        exact ⟨hstep.2 ▸ hrec.1, hrec.2.trans hstep.2⟩
  · intro c k v hlen hhas
    have hfind : assocFind c.data k = none := by
      unfold LRUCache.has at hhas
      rcases hf : assocFind c.data k with _ | v0
      · rfl
      · rw [hf] at hhas
        simp at hhas
    unfold LRUCache.set
    rw [if_pos ⟨by omega, by simp [hfind]⟩]
    have hd0 : (match c.data with | [] => ([] : List (K × V)) | _ :: t => t) = c.data.tail := by
      cases c.data <;> rfl
    rw [hd0]
    simp [eraseKey_of_find_none (assocFind_tail_none hfind)]

/-- C9 — witness.  A three-operation run on a capacity-2 cache stays within
bound, and a `set` of a new key at capacity evicts exactly the head. -/
theorem claim9_witness :
    (((⟨2, []⟩ : LRUCache String Nat).run
        [.set "a" 1, .set "b" 2, .get "a"]).data.length ≤ 2 ∧
      ((⟨2, []⟩ : LRUCache String Nat).run
        [.set "a" 1, .set "b" 2, .get "a"]).maxSize = 2) ∧
    ((⟨2, [("b", 2), ("a", 1)]⟩ : LRUCache String Nat).set "c" 3).data =
      [("b", 2), ("a", 1)].tail ++ [("c", 3)] :=
  ⟨claim9_amended.1 (⟨2, []⟩ : LRUCache String Nat)
      [.set "a" 1, .set "b" 2, .get "a"] (by decide) (by decide),
   claim9_amended.2 (⟨2, [("b", 2), ("a", 1)]⟩ : LRUCache String Nat) "c" 3
      (by decide) (by decide)⟩

/-- C5 — witness.  A historical `eth_getLogs` whose result is the empty
array is fallback-worthy under the amended characterisation. -/
theorem claim5_witness :
    shouldTryFallback ⟨"eth_getLogs", [Json.str "0x10"], Json.num 1⟩
      (Json.obj (.cons "result" (.arr .nil) .nil)) = true :=
  (claim5_amended ⟨"eth_getLogs", [Json.str "0x10"], Json.num 1⟩
      (Json.obj (.cons "result" (.arr .nil) .nil))).mpr
    ⟨by decide, by decide, Or.inr (Or.inr (Or.inr (Or.inr ⟨rfl, by decide⟩)))⟩
